import Mathlib

/-!
Verification development for the MediQuery HPO ingestion and analytics pipeline.

The definitions below are shallow embeddings of the Python sources under
src/HPO (phenotype.py, disease.py, conn.py, graph.py, graph_enhancer.py,
knowledge_graph_builder.py).  Python strings are Lean `String`s, Python
dictionaries are association lists, the Neo4j sink is an explicit record of
association lists, and the Cypher statements issued by the pipeline are
translated operation by operation.  Python exceptions that the code lets
propagate are modelled with `Option`.  Floating point arithmetic performed by
the sink on the small integer inputs used here is exact, so it is modelled
with `ℚ`.
-/

/-! ### Python string primitives

Helpers reproducing the Python `str` operations used by the sources:
`strip`, `split(sep)`, `split(sep, 1)`, lexicographic comparison, and `int()`.
All are structural recursions over the character list of the string. -/

/-- Characters removed by Python `str.strip()`. -/
def isPySpace (c : Char) : Bool :=
  c = ' ' || c = '\t' || c = '\n' || c = '\r' || c = '\x0b' || c = '\x0c'

/-- Python `str.strip()` on a character list. -/
def pyStripList (cs : List Char) : List Char :=
  ((cs.dropWhile isPySpace).reverse.dropWhile isPySpace).reverse

/-- Python `str.strip()`. -/
def pyStrip (s : String) : String := ⟨pyStripList s.data⟩

/-- Helper for `pySplitChar`: split a character list at every occurrence of
`sep`, keeping empty parts, accumulating the current part reversed. -/
def splitCharAux (sep : Char) : List Char → List Char → List (List Char)
  | [], acc => [acc.reverse]
  | c :: cs, acc =>
    if c = sep then acc.reverse :: splitCharAux sep cs []
    else splitCharAux sep cs (c :: acc)

/-- Python `s.split(sep)` with a one-character separator: `n` separators give
`n + 1` parts, empty parts kept. -/
def pySplitChar (sep : Char) (s : String) : List String :=
  (splitCharAux sep s.data []).map (fun l => ⟨l⟩)

/-- Helper for `pySplitFirst`: split at the first occurrence of `sep`;
`none` when `sep` does not occur. -/
def splitFirstAux (sep : Char) : List Char → Option (List Char × List Char)
  | [] => none
  | c :: cs =>
    if c = sep then some ([], cs)
    else (splitFirstAux sep cs).map (fun p => (c :: p.1, p.2))

/-- Python `s.split(sep, 1)` restricted to the case where `sep` occurs
(`none` otherwise); this also decides the Python test `sep in s`. -/
def pySplitFirst (sep : Char) (s : String) : Option (String × String) :=
  (splitFirstAux sep s.data).map (fun p => (⟨p.1⟩, ⟨p.2⟩))

/-- Python lexicographic `<=` on code points, on character lists. -/
def pyStrLeList : List Char → List Char → Bool
  | [], _ => true
  | _ :: _, [] => false
  | a :: as, b :: bs =>
    if a.val < b.val then true
    else if b.val < a.val then false
    else pyStrLeList as bs

/-- Python string comparison `a <= b` (lexicographic on code points). -/
def pyStrLe (a b : String) : Bool := pyStrLeList a.data b.data

/-- Helper for `pyInt`: value of a run of decimal digits; `none` on any
non-digit character. -/
def decDigitsAux : List Char → Nat → Option Nat
  | [], acc => some acc
  | c :: cs, acc =>
    if c.isDigit then decDigitsAux cs (acc * 10 + (c.toNat - 48)) else none

/-- Python `int(s)` on the string forms this repository feeds it (an optional
sign followed by decimal digits); `none` models the `ValueError` raised on any
other form. -/
def pyInt (s : String) : Option Int :=
  match s.data with
  | [] => none
  | '-' :: cs =>
    if cs.isEmpty then none else (decDigitsAux cs 0).map (fun n => -(n : Int))
  | '+' :: cs =>
    if cs.isEmpty then none else (decDigitsAux cs 0).map (fun n => (n : Int))
  | cs => (decDigitsAux cs 0).map (fun n => (n : Int))

/-! ### Category classifiers

Two implementations exist in the repository.
`PhenotypeProcessor._determine_category` (src/HPO/phenotype.py, lines 8-44)
compares the whole identifier string against 24 `(start, end, category)`
string ranges with Python string comparison, first match wins.
`MedicalKnowledgeGraphBuilder._determine_category` (src/HPO/graph.py, lines
61-85) extracts the numeric suffix and compares it against 12 integer ranges,
first match wins, with any exception mapped to the fallback label. -/

/-- The `self.categories` rule table of `PhenotypeProcessor.__init__`
(src/HPO/phenotype.py lines 8-33), in declaration order. -/
def categories : List (String × String × String) :=
  [ ("HP:0000005", "HP:0001999", "Inheritance"),
    ("HP:0000118", "HP:0001416", "Morphology"),
    ("HP:0000707", "HP:0001626", "Nervous System"),
    ("HP:0001574", "HP:0001780", "Integument"),
    ("HP:0000478", "HP:0000612", "Eye"),
    ("HP:0000598", "HP:0000706", "Ear"),
    ("HP:0000818", "HP:0000933", "Skeletal system"),
    ("HP:0001197", "HP:0001574", "Connective Tissue"),
    ("HP:0001507", "HP:0001573", "Growth"),
    ("HP:0001574", "HP:0001780", "Constitutional Symptom"),
    ("HP:0001781", "HP:0002060", "Limbs"),
    ("HP:0002061", "HP:0003128", "Musculature"),
    ("HP:0000152", "HP:0000589", "Head/Neck"),
    ("HP:0001608", "HP:0001621", "Voice"),
    ("HP:0001626", "HP:0001869", "Cardiovascular"),
    ("HP:0001871", "HP:0002087", "Blood"),
    ("HP:0002086", "HP:0002250", "Respiratory"),
    ("HP:0002242", "HP:0003011", "Abdomen"),
    ("HP:0000118", "HP:0000118", "Genitourinary system"),
    ("HP:0001939", "HP:0001939", "Metabolism/Homeostasis"),
    ("HP:0001871", "HP:0002597", "Endocrine"),
    ("HP:0002715", "HP:0004431", "Immunology"),
    ("HP:0004325", "HP:0004332", "Oncology"),
    ("HP:0032223", "HP:0033127", "Multisystem Disorder") ]

/-- First-match classification over an arbitrary ordered rule table using
Python string comparison, as in the loop of
`PhenotypeProcessor._determine_category` (src/HPO/phenotype.py lines 40-44). -/
def classifyRanges (rules : List (String × String × String)) (hpo_id : String) :
    String :=
  match rules.find? (fun r => pyStrLe r.1 hpo_id && pyStrLe hpo_id r.2.1) with
  | some r => r.2.2
  | none => "Other"

/-- `PhenotypeProcessor._determine_category` (src/HPO/phenotype.py lines
35-44): the empty string (Python falsy) short-circuits to the fallback,
otherwise first matching string range wins. -/
def determineCategory (hpo_id : String) : String :=
  if hpo_id = "" then "Other" else classifyRanges categories hpo_id

/-- The `categories` dictionary of
`MedicalKnowledgeGraphBuilder._determine_category` (src/HPO/graph.py lines
65-78), in insertion order (Python dictionaries iterate in insertion order). -/
def categoriesNum : List ((Int × Int) × String) :=
  [ ((0, 1999), "Morphology"),
    ((2000, 2999), "Neurological"),
    ((3000, 3999), "Behavioral"),
    ((4000, 4999), "Metabolic"),
    ((5000, 5999), "Cardiovascular"),
    ((6000, 6999), "Respiratory"),
    ((7000, 7999), "Digestive"),
    ((8000, 8999), "Musculoskeletal"),
    ((9000, 9999), "Immunological"),
    ((10000, 10999), "Growth"),
    ((11000, 11999), "Cellular"),
    ((12000, 12999), "Constitutional") ]

/-- `MedicalKnowledgeGraphBuilder._determine_category` (src/HPO/graph.py lines
61-85): when the identifier contains a separator the numeric suffix is
`int(hpo_id.split(":")[1])` (the split has at least two parts then, so index 1
is total); with no separator the suffix is taken to be `0`; a `ValueError`
from `int` is caught and yields the fallback; first matching integer range
wins. -/
def findCategoryNum (n : Int) : String :=
  match categoriesNum.find?
      (fun r => decide (r.1.1 ≤ n) && decide (n ≤ r.1.2)) with
  | some r => r.2
  | none => "Other"

/-- The numeric-suffix extraction and exception handling wrapped around
`findCategoryNum` (src/HPO/graph.py lines 63-64 and 84-85). -/
def determineCategoryNum (hpo_id : String) : String :=
  match (if hpo_id.data.contains ':' then
      pyInt ((pySplitChar ':' hpo_id).getD 1 "")
    else some 0) with
  | none => "Other"
  | some n => findCategoryNum n


/-! ### Graph analytics passes

Embeddings of the Cypher statements run by `GraphEnhancer`
(src/HPO/graph_enhancer.py).  The sink graph is a list of directed
ASSOCIATED_WITH edges and a list of directed HAS_PHENOTYPE edges
(disease, phenotype); each list entry is one relationship entity. -/

/-- Rows of the undirected pattern on a fixed endpoint,
one row per incident relationship. -/
def awIncident (aw : List (String × String)) (p : String) : List (String × String) :=
  aw.filter (fun e => e.1 == p || e.2 == p)

/-- The neighbor bound in each row of the undirected pattern on `p`. -/
def awNeighborRows (aw : List (String × String)) (p : String) : List String :=
  (awIncident aw p).map (fun e => if e.1 == p then e.2 else e.1)

/-- Hub pass of `GraphEnhancer.apply_graph_algorithms`
(src/HPO/graph_enhancer.py lines 109-118): the inner statement matches the
undirected ASSOCIATED_WITH pattern on `p` (a term with no such edge yields no
row, so its attribute is never set, modelled as `none`), counts the incident
relationships and sets the flag to `connections > 10`. -/
def isHub (aw : List (String × String)) (p : String) : Option Bool :=
  let connections := (awIncident aw p).length
  if connections = 0 then none
  else some (decide (connections > 10))

/-- Clustering-coefficient pass of `GraphEnhancer.apply_graph_algorithms`
(src/HPO/graph_enhancer.py lines 120-135).  The first MATCH collects the
neighbor multiset and its size `degree` (no rows: attribute unset, `none`).
The second, non-optional MATCH binds the undirected pattern over pairs of
distinct nodes that are both in `neighbors`: each qualifying relationship is
matched in both orientations, so it contributes two rows; zero rows again
drop the term (`none`).  Otherwise the coefficient is set by the CASE
expression of the source. -/
def clusterCoefficient (aw : List (String × String)) (p : String) : Option ℚ :=
  let neighbors := awNeighborRows aw p
  let degree := neighbors.length
  if degree = 0 then none
  else
    let triangles :=
      2 * (aw.filter (fun e =>
        e.1 != e.2 && neighbors.contains e.1 && neighbors.contains e.2)).length
    if triangles = 0 then none
    else some (if degree ≤ 1 then 0
               else (2 * (triangles : ℚ)) / ((degree : ℚ) * ((degree : ℚ) - 1)))

/-- Attributes written by the composite-metrics statement. -/
structure PhenoMetrics where
  prevalence : Nat
  connectivity : Nat
  specificity : ℚ
deriving Repr, DecidableEq

/-- Composite-metrics statement of `add_phenotype_metrics`
(src/HPO/graph_enhancer.py lines 142-164).  The statement opens with the
non-optional pattern `(p)<-[hp:HAS_PHENOTYPE]-()`: a term with no such edge
produces no row and gets nothing set (`none`); likewise the subsequent
non-optional `(p)-[aw:ASSOCIATED_WITH]-()`.  Otherwise prevalence and
connectivity are the distinct-relationship counts and specificity is the
guarded reciprocal.  The `hierarchical_level` and `leaf_node` parts of the
SET come from an OPTIONAL MATCH and a pattern predicate, which cannot drop
rows, so omitting them here does not change the modelled fields. -/
def addPhenotypeMetrics (hp aw : List (String × String)) (p : String) :
    Option PhenoMetrics :=
  let prevalence := (hp.filter (fun e => e.2 == p)).length
  if prevalence = 0 then none
  else
    let connectivity := (awIncident aw p).length
    if connectivity = 0 then none
    else some { prevalence := prevalence, connectivity := connectivity,
                specificity := if prevalence > 0 then 1 / (prevalence : ℚ) else 0 }

/-! ### Association miner

Embedding of the batched Cypher statement of
`GraphEnhancer.create_symptom_relationships`
(src/HPO/graph_enhancer.py lines 30-49) for one anchor phenotype. -/

/-- Number of rows of the co-occurrence pattern for the ordered pair
`(p1, p2)`: one row for each pair of HAS_PHENOTYPE relationships
`(d → p1, d → p2)` sharing the disease `d`; `COUNT(d)` counts these rows. -/
def coOccurrences (hp : List (String × String)) (p1 p2 : String) : Nat :=
  ((hp.filter (fun e => e.2 == p1)).map (fun e => hp.count (e.1, p2))).sum

/-- Rows of the second pattern `(p1)<-[r1:HAS_PHENOTYPE]-()`: the total
number of HAS_PHENOTYPE relationships into `p1`. -/
def totalOccurrences (hp : List (String × String)) (p1 : String) : Nat :=
  (hp.filter (fun e => e.2 == p1)).length

/-- One anchor step of `create_symptom_relationships`: the pair `(p1, p2)`
produces a row only when `p1 <> p2` and at least one disease links both (the
MATCH yields no row otherwise); the WHERE clause keeps only pairs with at
least 5 co-occurrence rows; the surviving pairs get an ASSOCIATED_WITH edge
carrying the co-occurrence count and the correlation strength
`co_occurrences * 1.0 / total_occurrences`. -/
def minedEdge (hp : List (String × String)) (p1 p2 : String) :
    Option (Nat × ℚ) :=
  if p1 = p2 then none
  else
    let co := coOccurrences hp p1 p2
    if co = 0 then none
    else if co < 5 then none
    else some (co, (co : ℚ) / (totalOccurrences hp p1 : ℚ))

/-- The specification-side notion for the miner: the number of distinct
diseases linked to both `p1` and `p2` ("count of shared diseases"). -/
def sharedDiseaseCount (hp : List (String × String)) (p1 p2 : String) : Nat :=
  (((hp.filter (fun e => e.2 == p1)).map (·.1)).dedup.filter
    (fun d => decide ((d, p2) ∈ hp))).length

/-! ### In-memory query index

Embedding of `HPOParser` traversal queries (src/HPO/conn.py lines 61-77).
The networkx digraph built by `parse_obo` has an edge `term → parent` for
every `is_a` entry; `nx.ancestors(G, t)` returns every node having a path TO
`t`, and `nx.descendants(G, t)` every node reachable FROM `t`, in both cases
excluding `t`; a node outside the graph raises, caught and turned into `[]`. -/

/-- Successors of `x` in the directed edge list. -/
def succsOf (es : List (String × String)) (x : String) : List String :=
  (es.filter (fun e => e.1 == x)).map (·.2)

/-- One expansion step of forward reachability. -/
def closureStep (es : List (String × String)) (s : List String) : List String :=
  (s ++ s.flatMap (succsOf es)).dedup

/-- Iterated expansion; `es.length` steps close the reachable set because a
shortest path repeats no edge. -/
def closureIter (es : List (String × String)) : Nat → List String → List String
  | 0, s => s
  | n + 1, s => closureIter es n (closureStep es s)

/-- Nodes reachable from `t` along the directed edges, excluding `t`. -/
def reachableFrom (es : List (String × String)) (t : String) : List String :=
  (closureIter es es.length [t]).filter (fun n => n != t)

/-- Node set of the digraph built by `parse_obo`: one node per parsed term
plus every edge endpoint. -/
def nxNodeSet (termIds : List String) (es : List (String × String)) :
    List String :=
  (termIds ++ es.map (·.1) ++ es.map (·.2)).dedup

/-- `HPOParser.get_ancestors` (src/HPO/conn.py lines 65-70): delegates to
`nx.ancestors`, i.e. the nodes that can reach `t` (reachability along the
REVERSED edges), with the missing-node error mapped to `[]`. -/
def getAncestors (termIds : List String) (es : List (String × String))
    (t : String) : List String :=
  if (nxNodeSet termIds es).contains t then
    reachableFrom (es.map (fun e => (e.2, e.1))) t
  else []

/-- `HPOParser.get_descendants` (src/HPO/conn.py lines 72-77): delegates to
`nx.descendants`, i.e. the nodes reachable from `t` along the edges. -/
def getDescendants (termIds : List String) (es : List (String × String))
    (t : String) : List String :=
  if (nxNodeSet termIds es).contains t then reachableFrom es t else []


/-! ### Term records and the batching parse loop

Embedding of `PhenotypeProcessor.process_obo_file`
(src/HPO/phenotype.py lines 54-121).  A `current_term` dictionary maps keys
to a scalar string on first occurrence, promoted to a list on repetition
(lines 101-111).  On a `[Term]` marker line the accumulated term is turned
into one node record plus one relationship record per `is_a` parent (lines
71-94), then a full batch is flushed (lines 96-98).  After the loop only a
non-empty partial batch is flushed (lines 113-114); the term accumulated
since the last marker is discarded.  Python exceptions that would escape the
loop (re-raised at line 121) are modelled by `none`. -/

/-- A Python dictionary value in `current_term`: a scalar string or a list. -/
inductive PyVal
  | s (v : String)
  | l (vs : List String)
deriving DecidableEq, Repr

/-- Lookup in an insertion-ordered association list. -/
def alGet {K V : Type} [DecidableEq K] : List (K × V) → K → Option V
  | [], _ => none
  | e :: es, k => if e.1 = k then some e.2 else alGet es k

/-- Key membership in an association list. -/
def alHas {K V : Type} [DecidableEq K] (l : List (K × V)) (k : K) : Bool :=
  (alGet l k).isSome

/-- Write to an association list: overwrite in place when the key is present
(Python dictionaries and the MERGE-by-key sink keep the original position),
append at the end otherwise. -/
def alSet {K V : Type} [DecidableEq K] : List (K × V) → K → V → List (K × V)
  | [], k, v => [(k, v)]
  | e :: es, k, v => if e.1 = k then (k, v) :: es else e :: alSet es k v

/-- The key-value accumulation of src/HPO/phenotype.py lines 105-111: first
occurrence stores a scalar, a second promotes to a two-element list, later
ones append. -/
def dictInsert (d : List (String × PyVal)) (k v : String) :
    List (String × PyVal) :=
  match alGet d k with
  | some (.s old) => alSet d k (.l [old, v])
  | some (.l vs) => alSet d k (.l (vs ++ [v]))
  | none => alSet d k (.s v)

/-- Attributes written to a phenotype node by the node upsert
(src/HPO/phenotype.py lines 129-140); the `created_at`/`modified_at`
timestamps drawn from the sink clock are not modelled. -/
structure PhenoAttrs where
  name : PyVal
  definition : String
  synonyms : PyVal
  category : String
  comment : PyVal
  xrefs : PyVal
deriving DecidableEq, Repr

/-- A node-shaped batch record (src/HPO/phenotype.py lines 75-83). -/
structure PhenoNodeRec where
  id : PyVal
  attrs : PhenoAttrs
deriving DecidableEq, Repr

/-- A batch record: node-shaped, or relationship-shaped with the
`child_id`/`parent_id` fields of src/HPO/phenotype.py lines 89-93. -/
inductive OboRec
  | node (n : PhenoNodeRec)
  | rel (child_id : PyVal) (parent_id : String)
deriving DecidableEq, Repr

/-- Python `x.split(" ")[0]` (the split always has at least one part). -/
def pySplitSpaceHead (x : String) : String := (pySplitChar ' ' x).getD 0 ""

/-- Category argument of line 73: `_determine_category(current_term.get("id",
""))`.  A list-valued id is Python-truthy when non-empty and then crashes in
the string comparison (`none`); an empty list is falsy and yields the
fallback. -/
def determineCategoryPy : PyVal → Option String
  | .s v => some (determineCategory v)
  | .l [] => some "Other"
  | .l (_ :: _) => none

/-- Definition extraction of line 78: absent key gives the empty string; a
scalar value is `v.split(CHR34)[1]`, raising when the value has no quoted
part (`none`); a list value raises immediately (`none`). -/
def defnOf (d : List (String × PyVal)) : Option String :=
  match alGet d "def" with
  | none => some ""
  | some (.s v) => (pySplitChar '"' v).get? 1
  | some (.l _) => none

/-- The node record built at src/HPO/phenotype.py lines 73-83. -/
def buildNode (d : List (String × PyVal)) : Option PhenoNodeRec := do
  let idv := (alGet d "id").getD (.s "")
  let cat ← determineCategoryPy idv
  let defn ← defnOf d
  some { id := idv,
         attrs := { name := (alGet d "name").getD (.s ""),
                    definition := defn,
                    synonyms := (alGet d "synonym").getD (.l []),
                    category := cat,
                    comment := (alGet d "comment").getD (.s ""),
                    xrefs := (alGet d "xref").getD (.l []) } }

/-- The relationship records built at src/HPO/phenotype.py lines 86-94.  The
loop `for parent in current_term[IS_A]` iterates over the VALUE: for a list
(two or more `is_a` lines) it yields each entry, but for a scalar string
(exactly one `is_a` line) Python iterates over its characters, so each
character becomes its own `parent` and survives `split(" ")[0]` unchanged.
The `child_id` field is the raw dictionary value of the id key (present by
the guard at line 72, so the default of `getD` is never taken). -/
def relRecords (d : List (String × PyVal)) : List OboRec :=
  let child := (alGet d "id").getD (.s "")
  match alGet d "is_a" with
  | none => []
  | some (.s v) => v.data.map (fun c => OboRec.rel child (pySplitSpaceHead ⟨[c]⟩))
  | some (.l vs) => vs.map (fun pv => OboRec.rel child (pySplitSpaceHead pv))

/-- Records emitted for the accumulated term when a `[Term]` marker is seen
(src/HPO/phenotype.py lines 72-94): nothing unless the dictionary is truthy
and has an id; otherwise the node record followed by its relationship
records. -/
def emitTerm (d : List (String × PyVal)) : Option (List OboRec) :=
  if !d.isEmpty && alHas d "id" then
    (buildNode d).map (fun n => OboRec.node n :: relRecords d)
  else some []

/-- State of the parse loop of `process_obo_file`. -/
structure OboSt where
  current : List (String × PyVal)
  batch : List OboRec
  flushed : List (List OboRec)
deriving DecidableEq, Repr

/-- One line of the loop of src/HPO/phenotype.py lines 67-111: strip; on a
marker line emit the accumulated term into the batch, flush the batch when
it has reached the batch size, and reset the term; on a line containing a
colon, accumulate the stripped key and value; ignore other lines. -/
def oboLine (B : Nat) (st : OboSt) (line : String) : Option OboSt := do
  let l := pyStrip line
  if l = "[Term]" then
    let recs ← emitTerm st.current
    let batch1 := st.batch ++ recs
    if B ≤ batch1.length then
      some { current := [], batch := [], flushed := st.flushed ++ [batch1] }
    else
      some { current := [], batch := batch1, flushed := st.flushed }
  else
    match pySplitFirst ':' l with
    | some (k, v) =>
      some { st with current := dictInsert st.current (pyStrip k) (pyStrip v) }
    | none => some st

/-- `PhenotypeProcessor.process_obo_file` as the list of flushed batches in
flush order: the loop over all lines followed by the final flush of a
non-empty partial batch (src/HPO/phenotype.py lines 113-114).  The term
accumulated after the last marker line is never emitted.  Since parsing
reads nothing back from the sink, running each batch as it is flushed is
equivalent to collecting the batches and running them in order. -/
def processOboFile (lines : List String) (B : Nat) :
    Option (List (List OboRec)) := do
  let st ← lines.foldlM (oboLine B) ⟨[], [], []⟩
  some (st.flushed ++ if st.batch.isEmpty then [] else [st.batch])

/-- The node records of a batch, in batch order
(src/HPO/phenotype.py line 125). -/
def batchNodes (b : List OboRec) : List PhenoNodeRec :=
  b.filterMap (fun r => match r with | .node n => some n | .rel _ _ => none)

/-- The relationship records of a batch, in batch order
(src/HPO/phenotype.py line 126). -/
def batchRels (b : List OboRec) : List (PyVal × String) :=
  b.filterMap (fun r => match r with | .rel c p => some (c, p) | .node _ => none)

/-! ### The graph sink

State of the Neo4j store as seen by the pipeline: phenotype nodes keyed by
the id property, IS_A edges keyed by their endpoint pair (their attributes
are the constants of src/HPO/phenotype.py lines 148-150), disease nodes
keyed by id with their name, and HAS_PHENOTYPE edges keyed by the
(disease, phenotype) pair with the annotation attributes. -/

/-- Attributes of a HAS_PHENOTYPE edge (src/HPO/disease.py lines 72-75);
the `created_at` timestamp is not modelled. -/
structure HPAttrs where
  evidence : String
  frequency : String
  onset : String
deriving DecidableEq, Repr

/-- The sink state. -/
structure Sink where
  phenotypes : List (PyVal × PhenoAttrs)
  isa : List (PyVal × String)
  diseases : List (String × String)
  hp : List ((String × String) × HPAttrs)
deriving DecidableEq, Repr

/-- The empty sink. -/
def emptySink : Sink := ⟨[], [], [], []⟩

/-- Node upsert of src/HPO/phenotype.py lines 129-140: MERGE by id then SET
all attributes (create or overwrite). -/
def upsertPhenotype (s : Sink) (n : PhenoNodeRec) : Sink :=
  { s with phenotypes := alSet s.phenotypes n.id n.attrs }

/-- Relationship upsert of src/HPO/phenotype.py lines 143-151: both MATCH
clauses must find their node or the row is dropped; then MERGE creates the
edge unless the endpoint pair already has one; the SET writes constants, so
it is not modelled.  The parent id from the record is a string, so it
matches a phenotype whose id property is that string. -/
def upsertIsA (s : Sink) (c : PyVal) (p : String) : Sink :=
  if alHas s.phenotypes c && alHas s.phenotypes (.s p) then
    if (c, p) ∈ s.isa then s else { s with isa := s.isa ++ [(c, p)] }
  else s

/-- Batch processing of `PhenotypeProcessor._process_batch`
(src/HPO/phenotype.py lines 123-151): the batch is split into node-shaped
and relationship-shaped records and ALL node upserts run before ANY
relationship upsert. -/
def processBatch (s : Sink) (b : List OboRec) : Sink :=
  let s1 := (batchNodes b).foldl upsertPhenotype s
  (batchRels b).foldl (fun t r => upsertIsA t r.1 r.2) s1

/-- Running every flushed batch in flush order. -/
def ingestObo (s : Sink) (batches : List (List OboRec)) : Sink :=
  batches.foldl processBatch s

/-! ### AnnotRow ingestion

Embedding of `DiseaseProcessor` (src/HPO/disease.py). -/

/-- One parsed annotation row (src/HPO/disease.py lines 37-44). -/
structure AnnotRow where
  disease_id : String
  disease_name : String
  phenotype_id : String
  evidence : String
  frequency : String
  onset : String
deriving DecidableEq, Repr

/-- Python `p.startswith(s)` via character lists. -/
def startsWithList : List Char → List Char → Bool
  | [], _ => true
  | _ :: _, [] => false
  | p :: ps, c :: cs => p = c && startsWithList ps cs

/-- Python `s.startswith(p)`. -/
def pyStarts (p s : String) : Bool := startsWithList p.data s.data

/-- One line of the loop of src/HPO/disease.py lines 30-47: comment lines
are skipped, the stripped line is split on tabs, and rows with at least 4
parts become a record with optional columns defaulting to the empty
string. -/
def parseAnnotRow (line : String) : Option AnnotRow :=
  if pyStarts "#" line then none
  else
    let parts := pySplitChar '\t' (pyStrip line)
    if 4 ≤ parts.length then
      some { disease_id := parts.getD 0 "", disease_name := parts.getD 1 "",
             phenotype_id := parts.getD 3 "",
             evidence := if 5 < parts.length then parts.getD 5 "" else "",
             frequency := if 8 < parts.length then parts.getD 8 "" else "",
             onset := if 9 < parts.length then parts.getD 9 "" else "" }
    else none

/-- `DiseaseProcessor.process_phenotype_annotations` record stream: the
header line is consumed before the loop (line 29); batching flushes
full batches in order and the final partial batch (lines 49-54), so the
upsert order over the whole phase is row order. -/
def parseAnnotRows (lines : List String) : List AnnotRow :=
  (lines.drop 1).filterMap parseAnnotRow

/-- Row upsert of `DiseaseProcessor._process_annotation_batch`
(src/HPO/disease.py lines 62-79): the disease node is merged and its name
overwritten unconditionally; then the phenotype MATCH drops the row when the
phenotype id is absent, otherwise the HAS_PHENOTYPE edge is merged by
endpoint pair and its attributes overwritten. -/
def upsertAnnot (s : Sink) (a : AnnotRow) : Sink :=
  let s1 := { s with diseases := alSet s.diseases a.disease_id a.disease_name }
  let attrs : HPAttrs := ⟨a.evidence, a.frequency, a.onset⟩
  if alHas s1.phenotypes (.s a.phenotype_id) then
    { s1 with hp := alSet s1.hp (a.disease_id, a.phenotype_id) attrs }
  else s1

/-- One full ingestion run (src/HPO/knowledge_graph_builder.py lines
115-119): the OBO phase then the annotation phase. -/
def ingestRun (s : Sink) (batches : List (List OboRec))
    (annots : List AnnotRow) : Sink :=
  annots.foldl upsertAnnot (ingestObo s batches)

/-! ### The in-memory parser of conn.py

Embedding of `HPOParser.parse_obo` (src/HPO/conn.py lines 11-43).  Unlike
the ingesting parser above, this one stores the term accumulated at end of
input (lines 32-34).  `current_term` starts as Python `None`; a recognized
key line before the first marker would raise (modelled `none`), and storing
a term without an id would raise `KeyError` (`none`). -/

/-- Characters of `cs` before the first occurrence of the substring `sep`
(all of `cs` when absent): Python `x.split(sep)[0]`. -/
def beforeSubAux (sep : List Char) : List Char → List Char
  | [] => []
  | c :: rest =>
    if startsWithList sep (c :: rest) then [] else c :: beforeSubAux sep rest

/-- State of the `parse_obo` loop: the optional current term dictionary and
the insertion-ordered `self.terms` map. -/
structure ConnSt where
  current : Option (List (String × PyVal))
  terms : List (String × List (String × PyVal))
deriving DecidableEq, Repr

/-- Store the accumulated term under its id key
(src/HPO/conn.py lines 18-19 and 33-34): a falsy (absent or empty) current
term is not stored; a truthy one without an id raises. -/
def connStore (terms : List (String × List (String × PyVal)))
    (cur : Option (List (String × PyVal))) :
    Option (List (String × List (String × PyVal))) :=
  match cur with
  | none => some terms
  | some d =>
    if d.isEmpty then some terms
    else match alGet d "id" with
      | some (.s idv) => some (alSet terms idv d)
      | _ => none

/-- One line of the loop of src/HPO/conn.py lines 15-30. -/
def connLine (st : ConnSt) (line : String) : Option ConnSt := do
  let l := pyStrip line
  if l = "[Term]" then do
    let terms ← connStore st.terms st.current
    some { current := some [], terms := terms }
  else if pyStarts "id: " l then
    match st.current with
    | none => none
    | some d => some { st with current := some (alSet d "id" (.s ⟨l.data.drop 4⟩)) }
  else if pyStarts "name: " l then
    match st.current with
    | none => none
    | some d => some { st with current := some (alSet d "name" (.s ⟨l.data.drop 6⟩)) }
  else if pyStarts "def: " l then
    match st.current with
    | none => none
    | some d =>
      match (pySplitChar '"' ⟨l.data.drop 5⟩).get? 1 with
      | none => none
      | some defn =>
        some { st with current := some (alSet d "definition" (.s defn)) }
  else if pyStarts "is_a: " l then
    match st.current with
    | none => none
    | some d =>
      let entry : String := ⟨beforeSubAux [' ', '!'] (l.data.drop 6)⟩
      match alGet d "is_a" with
      | none => some { st with current := some (alSet d "is_a" (.l [entry])) }
      | some (.l vs) =>
        some { st with current := some (alSet d "is_a" (.l (vs ++ [entry]))) }
      | some (.s _) => none
  else
    some st

/-- `HPOParser.parse_obo` (src/HPO/conn.py lines 11-34): the loop over all
lines followed by the storing of the LAST term at end of input. -/
def parseObo (lines : List String) :
    Option (List (String × List (String × PyVal))) := do
  let st ← lines.foldlM connLine ⟨none, []⟩
  connStore st.terms st.current

/-- Term ids of the parsed map, in insertion order; these are the nodes
added by the graph-building loop of src/HPO/conn.py lines 37-40. -/
def connTermIds (terms : List (String × List (String × PyVal))) : List String :=
  terms.map (·.1)

/-- The `is_a` edges term to parent added by the graph-building loop of
src/HPO/conn.py lines 41-43. -/
def connEdges (terms : List (String × List (String × PyVal))) :
    List (String × String) :=
  terms.flatMap (fun t =>
    match alGet t.2 "is_a" with
    | some (.l vs) => vs.map (fun p => (t.1, p))
    | _ => [])

/-- A two-block ontology input whose final block has no trailing marker. -/
def exTwoBlocks : List String :=
  ["[Term]", "id: HP:0000001", "name: A", "[Term]", "id: HP:0000002", "name: B"]

/-! ### Primitive-action view of a run

A full ingestion run applies its upserts in a fixed order: for each flushed
batch all node upserts then all relationship upserts, then the annotation
rows in row order.  Flattening this order into one action list lets the
idempotence argument proceed by a single induction. -/

/-- A primitive sink operation issued by the pipeline. -/
inductive Act
  | node (n : PhenoNodeRec)
  | isa (c : PyVal) (p : String)
  | annot (a : AnnotRow)
deriving DecidableEq, Repr

/-- Dispatch of one primitive operation. -/
def applyAct (s : Sink) : Act → Sink
  | .node n => upsertPhenotype s n
  | .isa c p => upsertIsA s c p
  | .annot a => upsertAnnot s a

/-- Apply a list of primitive operations in order. -/
def applyActs (s : Sink) (l : List Act) : Sink := l.foldl applyAct s

/-- The operations of one batch: the node upserts then the relationship
upserts, as issued by `_process_batch`. -/
def batchActs (b : List OboRec) : List Act :=
  (batchNodes b).map Act.node ++ (batchRels b).map (fun r => Act.isa r.1 r.2)

/-- The operation sequence of a full run. -/
def planOf (batches : List (List OboRec)) (annots : List AnnotRow) :
    List Act :=
  batches.flatMap batchActs ++ annots.map Act.annot

/-- Ids of the node upserts of an operation sequence. -/
def nodeIds (l : List Act) : List PyVal :=
  l.filterMap (fun a => match a with | .node n => some n.id | _ => none)

/-- Option alternative with the first operand preferred. -/
def oor {α : Type} : Option α → Option α → Option α
  | some v, _ => some v
  | none, b => b

/-- Attributes of the last node upsert for a given id in an operation
sequence. -/
def lastNodeWrite : List Act → PyVal → Option PhenoAttrs
  | [], _ => none
  | Act.node n :: acts, k =>
    oor (lastNodeWrite acts k) (if n.id = k then some n.attrs else none)
  | _ :: acts, k => lastNodeWrite acts k

/-- Name of the last disease upsert for a given disease id in an operation
sequence. -/
def lastDiseaseWrite : List Act → String → Option String
  | [], _ => none
  | Act.annot a :: acts, k =>
    oor (lastDiseaseWrite acts k)
      (if a.disease_id = k then some a.disease_name else none)
  | _ :: acts, k => lastDiseaseWrite acts k

/-- Attributes of the last HAS_PHENOTYPE upsert for a given endpoint pair,
where a row counts only when its phenotype id passes the presence test
(the MATCH of src/HPO/disease.py line 70). -/
def lastHpWrite (present : String → Bool) :
    List Act → String × String → Option HPAttrs
  | [], _ => none
  | Act.annot a :: acts, k =>
    oor (lastHpWrite present acts k)
      (if (a.disease_id, a.phenotype_id) = k ∧ present a.phenotype_id then
        some ⟨a.evidence, a.frequency, a.onset⟩
      else none)
  | _ :: acts, k => lastHpWrite present acts k

/-- Keys of an association list. -/
def alKeys {K V : Type} (l : List (K × V)) : List K := l.map (·.1)

/-- Well-formedness of the sink: no duplicate node on either label and no
duplicate edge of either type (what the MERGE-by-key protocol maintains). -/
def SinkWF (s : Sink) : Prop :=
  (alKeys s.phenotypes).Nodup ∧ s.isa.Nodup ∧
  (alKeys s.diseases).Nodup ∧ (alKeys s.hp).Nodup

/-- Equality of the reachable node/edge attribute sets of two sinks: the
same lookups on both node labels and both edge types. -/
def SinkEquiv (a b : Sink) : Prop :=
  (∀ k, alGet a.phenotypes k = alGet b.phenotypes k) ∧ a.isa = b.isa ∧
  (∀ k, alGet a.diseases k = alGet b.diseases k) ∧
  (∀ k, alGet a.hp k = alGet b.hp k)

/-! ### Concrete inputs used by the claim instances -/

/-- Membership of an identifier in one rule of the string classifier. -/
def inRangeStr (r : String × String × String) (x : String) : Bool :=
  pyStrLe r.1 x && pyStrLe x r.2.1

/-- Eleven ASSOCIATED_WITH relationships incident to the term `"p"`. -/
def exAw11 : List (String × String) :=
  [("p","q01"),("p","q02"),("p","q03"),("p","q04"),("p","q05"),("p","q06"),
   ("p","q07"),("p","q08"),("p","q09"),("p","q10"),("p","q11")]

/-- Ten ASSOCIATED_WITH relationships incident to the term `"p"`. -/
def exAw10 : List (String × String) :=
  [("p","q01"),("p","q02"),("p","q03"),("p","q04"),("p","q05"),("p","q06"),
   ("p","q07"),("p","q08"),("p","q09"),("p","q10")]

/-- A term `"p"` with exactly two neighbors that are themselves connected. -/
def exTri : List (String × String) := [("p","a"),("p","b"),("a","b")]

/-- HAS_PHENOTYPE edges: diseases D1..D6 each linked to phenotypes A and B,
and D7 linked to A and C. -/
def exHP : List (String × String) :=
  [("D1","A"),("D1","B"),("D2","A"),("D2","B"),("D3","A"),("D3","B"),
   ("D4","A"),("D4","B"),("D5","A"),("D5","B"),("D6","A"),("D6","B"),
   ("D7","A"),("D7","C")]

/-- Ontology input for the in-memory index: HP:0000002 is_a HP:0000001. -/
def exConnInput : List String :=
  ["[Term]", "id: HP:0000001", "[Term]", "id: HP:0000002", "is_a: HP:0000001"]

/-- Ontology input whose two terms land in a single batch: a trailing marker
line makes the second term emit (compare `exTwoBlocks`, where it is
dropped). -/
def exOneBatch : List String :=
  ["[Term]", "id: HP:0000001", "[Term]", "id: HP:0000002",
   "is_a: HP:0000001", "[Term]"]

/-- Ontology input whose forward `is_a` reference crosses a batch boundary
at batch size 3: the first batch holds HP:0000002 and its two relationship
records, the second batch holds HP:0000001. -/
def exC6Input : List String :=
  ["[Term]", "id: HP:0000002", "is_a: HP:0000001", "is_a: HP:0000003",
   "[Term]", "id: HP:0000001", "[Term]"]

/-- A single-node batch whose id is already present in `exSinkC6`. -/
def exNodeC6 : PhenoNodeRec :=
  ⟨.s "HP:0000001", ⟨.s "A", "", .l [], "Other", .s "", .l []⟩⟩

/-- A sink already holding the phenotype node written by `exNodeC6`. -/
def exSinkC6 : Sink := ⟨[(.s "HP:0000001", exNodeC6.attrs)], [], [], []⟩

/-! ### Supporting lemmas

Generic facts about association-list writes and about the primitive-action
view of an ingestion run.  These carry the idempotence argument of claim C6
and the classifier and miner arguments of claims C5 and C7. -/

theorem alGet_alSet {K V : Type} [DecidableEq K] (l : List (K × V)) (k : K)
    (v : V) (x : K) :
    alGet (alSet l k v) x = if x = k then some v else alGet l x := by
  induction l with
  | nil =>
    simp only [alSet, alGet]
    by_cases hx : x = k
    · rw [if_pos (hx ▸ rfl), if_pos hx]
    · rw [if_neg (fun h : k = x => hx h.symm), if_neg hx]
  | cons e es ih =>
    by_cases h : e.1 = k
    · subst h
      simp only [alSet, if_pos rfl, alGet]
      by_cases hx : x = e.1
      · rw [if_pos (hx ▸ rfl), if_pos hx]
      · have hfx : ¬ e.1 = x := fun hh => hx hh.symm
        rw [if_neg hfx, if_neg hx, if_neg hfx]
    · simp only [alSet, if_neg h, alGet, ih]
      by_cases hx : e.1 = x
      · have hxk : ¬ x = k := fun hh => h (hx.trans hh)
        rw [if_pos hx, if_neg hxk, if_pos hx]
      · by_cases hxx : x = k
        · rw [if_neg hx, if_pos hxx, if_pos hxx]
        · rw [if_neg hx, if_neg hxx, if_neg hxx, if_neg hx]

theorem alHas_alSet {K V : Type} [DecidableEq K] (l : List (K × V)) (k : K)
    (v : V) (x : K) :
    alHas (alSet l k v) x = if x = k then true else alHas l x := by
  simp only [alHas, alGet_alSet]
  split_ifs <;> simp

theorem alHas_iff_mem {K V : Type} [DecidableEq K] (l : List (K × V)) (k : K) :
    alHas l k = true ↔ k ∈ alKeys l := by
  induction l with
  | nil => simp [alHas, alGet, alKeys]
  | cons e es ih =>
    simp only [alHas, alGet]
    by_cases h : e.1 = k
    · simp only [if_pos h, alKeys, List.map_cons, List.mem_cons]
      simp [h.symm]
    · simp only [if_neg h, alKeys, List.map_cons, List.mem_cons]
      constructor
      · intro hh
        exact Or.inr (ih.mp hh)
      · rintro (rfl | hh)
        · exact absurd rfl h
        · exact ih.mpr hh

theorem alKeys_alSet {K V : Type} [DecidableEq K] (l : List (K × V)) (k : K)
    (v : V) :
    alKeys (alSet l k v) = if alHas l k then alKeys l else alKeys l ++ [k] := by
  induction l with
  | nil => simp [alSet, alKeys, alHas, alGet]
  | cons e es ih =>
    by_cases h : e.1 = k
    · subst h
      simp [alSet, alKeys, alHas, alGet]
    · have hh : alHas (e :: es) k = alHas es k := by
        simp [alHas, alGet, if_neg h]
      simp only [alSet, if_neg h, alKeys, List.map_cons, hh]
      by_cases hk : alHas es k
      · rw [if_pos hk]
        have := ih
        rw [if_pos hk] at this
        simp only [alKeys] at this
        simp [this]
      · rw [if_neg hk]
        have := ih
        rw [if_neg hk] at this
        simp only [alKeys] at this
        simp [this]

theorem alKeys_nodup_alSet {K V : Type} [DecidableEq K] (l : List (K × V))
    (k : K) (v : V) (h : (alKeys l).Nodup) : (alKeys (alSet l k v)).Nodup := by
  rw [alKeys_alSet]
  split_ifs with hp
  · exact h
  · simp only [List.nodup_append, List.nodup_cons, List.not_mem_nil,
      not_false_iff, List.nodup_nil, and_true, true_and]
    refine ⟨h, ?_⟩
    intro a ha hb
    simp only [List.mem_singleton] at hb
    subst hb
    rw [← alHas_iff_mem] at ha
    simp [ha] at hp

-- component effect lemmas
theorem phenotypes_upsertIsA (s : Sink) (c : PyVal) (p : String) :
    (upsertIsA s c p).phenotypes = s.phenotypes := by
  unfold upsertIsA; split_ifs <;> rfl

theorem phenotypes_upsertAnnot (s : Sink) (a : AnnotRow) :
    (upsertAnnot s a).phenotypes = s.phenotypes := by
  simp only [upsertAnnot]; split_ifs <;> rfl

theorem isa_upsertAnnot (s : Sink) (a : AnnotRow) :
    (upsertAnnot s a).isa = s.isa := by
  simp only [upsertAnnot]; split_ifs <;> rfl

theorem diseases_upsertIsA (s : Sink) (c : PyVal) (p : String) :
    (upsertIsA s c p).diseases = s.diseases := by
  unfold upsertIsA; split_ifs <;> rfl

theorem hp_upsertIsA (s : Sink) (c : PyVal) (p : String) :
    (upsertIsA s c p).hp = s.hp := by
  unfold upsertIsA; split_ifs <;> rfl

theorem isa_upsertIsA_sub (s : Sink) (c : PyVal) (p : String) (e : PyVal × String)
    (h : e ∈ s.isa) : e ∈ (upsertIsA s c p).isa := by
  unfold upsertIsA
  split_ifs <;> simp [h]

theorem isa_upsertIsA_mem (s : Sink) (c : PyVal) (p : String)
    (hc : alHas s.phenotypes c = true) (hp : alHas s.phenotypes (.s p) = true) :
    (c, p) ∈ (upsertIsA s c p).isa := by
  unfold upsertIsA
  rw [if_pos (by simp [hc, hp])]
  split_ifs with h
  · exact h
  · simp

-- characterization of phenotype lookups after a run
theorem phenoGet_applyActs (acts : List Act) : ∀ (s : Sink) (k : PyVal),
    alGet (applyActs s acts).phenotypes k =
      oor (lastNodeWrite acts k) (alGet s.phenotypes k) := by
  induction acts with
  | nil => intro s k; rfl
  | cons a acts ih =>
    intro s k
    have step : applyActs s (a :: acts) = applyActs (applyAct s a) acts := rfl
    rw [step, ih]
    cases a with
    | node n =>
      simp only [lastNodeWrite]
      cases hL : lastNodeWrite acts k with
      | some v => simp [oor]
      | none =>
        simp only [oor]
        show alGet (alSet s.phenotypes n.id n.attrs) k = _
        rw [alGet_alSet]
        by_cases h : k = n.id
        · rw [if_pos h, if_pos (h ▸ rfl)]
        · rw [if_neg h, if_neg (fun hh : n.id = k => h hh.symm)]
    | isa c p =>
      simp only [lastNodeWrite]
      have : (applyAct s (.isa c p)).phenotypes = s.phenotypes :=
        phenotypes_upsertIsA s c p
      rw [this]
    | annot b =>
      simp only [lastNodeWrite]
      have : (applyAct s (.annot b)).phenotypes = s.phenotypes :=
        phenotypes_upsertAnnot s b
      rw [this]

-- characterization of disease lookups after a run
theorem diseaseGet_applyActs (acts : List Act) : ∀ (s : Sink) (k : String),
    alGet (applyActs s acts).diseases k =
      oor (lastDiseaseWrite acts k) (alGet s.diseases k) := by
  induction acts with
  | nil => intro s k; rfl
  | cons a acts ih =>
    intro s k
    have step : applyActs s (a :: acts) = applyActs (applyAct s a) acts := rfl
    rw [step, ih]
    cases a with
    | node n =>
      simp only [lastDiseaseWrite]
      have : (applyAct s (.node n)).diseases = s.diseases := rfl
      rw [this]
    | isa c p =>
      simp only [lastDiseaseWrite]
      have : (applyAct s (.isa c p)).diseases = s.diseases :=
        diseases_upsertIsA s c p
      rw [this]
    | annot b =>
      simp only [lastDiseaseWrite]
      cases hL : lastDiseaseWrite acts k with
      | some v => simp [oor]
      | none =>
        simp only [oor]
        have hd : (applyAct s (.annot b)).diseases
            = alSet s.diseases b.disease_id b.disease_name := by
          show (upsertAnnot s b).diseases = _
          simp only [upsertAnnot]
          split_ifs <;> rfl
        rw [hd, alGet_alSet]
        by_cases h : k = b.disease_id
        · rw [if_pos h, if_pos (h ▸ rfl)]
        · rw [if_neg h, if_neg (fun hh : b.disease_id = k => h hh.symm)]

-- presence monotonicity
theorem phenoHas_applyAct (s : Sink) (a : Act) (k : PyVal)
    (h : alHas s.phenotypes k = true) :
    alHas (applyAct s a).phenotypes k = true := by
  cases a with
  | node n =>
    show alHas (alSet s.phenotypes n.id n.attrs) k = true
    rw [alHas_alSet]
    split_ifs
    · rfl
    · exact h
  | isa c p => rw [show (applyAct s (.isa c p)).phenotypes = s.phenotypes from
      phenotypes_upsertIsA s c p]; exact h
  | annot b => rw [show (applyAct s (.annot b)).phenotypes = s.phenotypes from
      phenotypes_upsertAnnot s b]; exact h

theorem isaMem_applyActs (acts : List Act) : ∀ (s : Sink) (e : PyVal × String),
    e ∈ s.isa → e ∈ (applyActs s acts).isa := by
  induction acts with
  | nil => intro s e h; exact h
  | cons a acts ih =>
    intro s e h
    rw [show applyActs s (a :: acts) = applyActs (applyAct s a) acts from rfl]
    refine ih _ _ ?_
    cases a with
    | node n => exact h
    | isa c p => exact isa_upsertIsA_sub s c p e h
    | annot b => rw [show (applyAct s (.annot b)).isa = s.isa from
        isa_upsertAnnot s b]; exact h

-- pointwise preservation of phenotype presence by a node write whose id is
-- already present
theorem phenoHas_alSet_present (ph : List (PyVal × PhenoAttrs)) (n : PhenoNodeRec)
    (hn : alHas ph n.id = true) (x : PyVal) :
    alHas (alSet ph n.id n.attrs) x = alHas ph x := by
  rw [alHas_alSet]
  split_ifs with h
  · rw [h]; exact hn.symm
  · rfl

theorem nodeIds_cons_node (n : PhenoNodeRec) (acts : List Act) :
    nodeIds (Act.node n :: acts) = n.id :: nodeIds acts := rfl

theorem nodeIds_cons_isa (c : PyVal) (p : String) (acts : List Act) :
    nodeIds (Act.isa c p :: acts) = nodeIds acts := rfl

theorem nodeIds_cons_annot (b : AnnotRow) (acts : List Act) :
    nodeIds (Act.annot b :: acts) = nodeIds acts := rfl

-- key stability under a run whose node ids are all present
theorem phenoKeys_applyActs (acts : List Act) : ∀ (s : Sink),
    (∀ kk ∈ nodeIds acts, alHas s.phenotypes kk = true) →
    alKeys (applyActs s acts).phenotypes = alKeys s.phenotypes := by
  induction acts with
  | nil => intro s _; rfl
  | cons a acts ih =>
    intro s hids
    rw [show applyActs s (a :: acts) = applyActs (applyAct s a) acts from rfl]
    cases a with
    | node n =>
      have hn : alHas s.phenotypes n.id = true := by
        refine hids n.id ?_
        rw [nodeIds_cons_node]; exact List.mem_cons_self _ _
      have hkeys : alKeys (applyAct s (.node n)).phenotypes
          = alKeys s.phenotypes := by
        show alKeys (alSet s.phenotypes n.id n.attrs) = _
        rw [alKeys_alSet, if_pos hn]
      rw [ih _ ?_, hkeys]
      intro kk hk
      have hs : alHas s.phenotypes kk = true := by
        refine hids kk ?_
        rw [nodeIds_cons_node]; exact List.mem_cons_of_mem _ hk
      exact phenoHas_applyAct s _ kk hs
    | isa c p =>
      have hpt : (applyAct s (.isa c p)).phenotypes = s.phenotypes :=
        phenotypes_upsertIsA s c p
      rw [ih _ ?_, hpt]
      intro kk hk
      rw [hpt]
      refine hids kk ?_
      rw [nodeIds_cons_isa]; exact hk
    | annot b =>
      have hpt : (applyAct s (.annot b)).phenotypes = s.phenotypes :=
        phenotypes_upsertAnnot s b
      rw [ih _ ?_, hpt]
      intro kk hk
      rw [hpt]
      refine hids kk ?_
      rw [nodeIds_cons_annot]; exact hk

-- every eligible relationship record ends up in the edge set
theorem isaComplete (acts : List Act) : ∀ (s : Sink) (c : PyVal) (p : String),
    Act.isa c p ∈ acts → alHas s.phenotypes c = true →
    alHas s.phenotypes (.s p) = true → (c, p) ∈ (applyActs s acts).isa := by
  induction acts with
  | nil => intro s c p h; exact absurd h (List.not_mem_nil _)
  | cons a acts ih =>
    intro s c p hmem hc hp
    rw [show applyActs s (a :: acts) = applyActs (applyAct s a) acts from rfl]
    rcases List.mem_cons.mp hmem with heq | htail
    · subst heq
      exact isaMem_applyActs acts _ _ (isa_upsertIsA_mem s c p hc hp)
    · exact ih _ c p htail (phenoHas_applyAct s a _ hc) (phenoHas_applyAct s a _ hp)

-- a second run adds no edge
theorem isaStable (acts : List Act) : ∀ (s : Sink),
    (∀ c p, Act.isa c p ∈ acts → alHas s.phenotypes c = true →
      alHas s.phenotypes (.s p) = true → (c, p) ∈ s.isa) →
    (∀ kk ∈ nodeIds acts, alHas s.phenotypes kk = true) →
    (applyActs s acts).isa = s.isa := by
  induction acts with
  | nil => intro s _ _; rfl
  | cons a acts ih =>
    intro s hedge hids
    rw [show applyActs s (a :: acts) = applyActs (applyAct s a) acts from rfl]
    cases a with
    | node n =>
      have hn : alHas s.phenotypes n.id = true := by
        refine hids n.id ?_
        rw [nodeIds_cons_node]; exact List.mem_cons_self _ _
      have hpt : ∀ x, alHas (applyAct s (.node n)).phenotypes x
          = alHas s.phenotypes x := fun x => phenoHas_alSet_present _ n hn x
      have hisa : (applyAct s (.node n)).isa = s.isa := rfl
      rw [ih _ ?_ ?_, hisa]
      · intro c p hm hc hp
        rw [hisa]
        refine hedge c p ?_ ?_ ?_
        · exact List.mem_cons_of_mem _ hm
        · rw [hpt] at hc; exact hc
        · rw [hpt] at hp; exact hp
      · intro kk hk
        rw [hpt]
        refine hids kk ?_
        rw [nodeIds_cons_node]; exact List.mem_cons_of_mem _ hk
    | isa c p =>
      by_cases hcp : alHas s.phenotypes c = true ∧ alHas s.phenotypes (.s p) = true
      · have hmem : (c, p) ∈ s.isa :=
          hedge c p (List.mem_cons_self _ _) hcp.1 hcp.2
        have hup : applyAct s (.isa c p) = s := by
          show upsertIsA s c p = s
          unfold upsertIsA
          rw [if_pos (by rw [Bool.and_eq_true]; exact hcp), if_pos hmem]
        rw [hup]
        refine ih s ?_ ?_
        · intro c' p' hm
          exact hedge c' p' (List.mem_cons_of_mem _ hm)
        · intro kk hk
          refine hids kk ?_
          rw [nodeIds_cons_isa]; exact hk
      · have hup : applyAct s (.isa c p) = s := by
          show upsertIsA s c p = s
          unfold upsertIsA
          rw [if_neg (by rw [Bool.and_eq_true]; exact hcp)]
        rw [hup]
        refine ih s ?_ ?_
        · intro c' p' hm
          exact hedge c' p' (List.mem_cons_of_mem _ hm)
        · intro kk hk
          refine hids kk ?_
          rw [nodeIds_cons_isa]; exact hk
    | annot b =>
      have hpt : (applyAct s (.annot b)).phenotypes = s.phenotypes :=
        phenotypes_upsertAnnot s b
      have hisa : (applyAct s (.annot b)).isa = s.isa := isa_upsertAnnot s b
      rw [ih _ ?_ ?_, hisa]
      · intro c p hm hc hp
        rw [hisa]
        refine hedge c p (List.mem_cons_of_mem _ hm) ?_ ?_
        · rw [hpt] at hc; exact hc
        · rw [hpt] at hp; exact hp
      · intro kk hk
        rw [hpt]
        refine hids kk ?_
        rw [nodeIds_cons_annot]; exact hk

theorem lastHpWrite_congr (p1 p2 : String → Bool) (h : ∀ x, p1 x = p2 x) :
    ∀ (acts : List Act) (k : String × String),
    lastHpWrite p1 acts k = lastHpWrite p2 acts k := by
  intro acts
  induction acts with
  | nil => intro k; rfl
  | cons a acts ih =>
    intro k
    cases a with
    | node n => simp only [lastHpWrite]; exact ih k
    | isa c p => simp only [lastHpWrite]; exact ih k
    | annot b =>
      simp only [lastHpWrite, h b.phenotype_id]
      rw [ih k]

theorem hpGet_applyActs (acts : List Act) : ∀ (s : Sink) (k : String × String),
    (∀ kk ∈ nodeIds acts, alHas s.phenotypes kk = true) →
    alGet (applyActs s acts).hp k =
      oor (lastHpWrite (fun pid => alHas s.phenotypes (.s pid)) acts k)
        (alGet s.hp k) := by
  induction acts with
  | nil => intro s k _; rfl
  | cons a acts ih =>
    intro s k hids
    rw [show applyActs s (a :: acts) = applyActs (applyAct s a) acts from rfl]
    cases a with
    | node n =>
      have hn : alHas s.phenotypes n.id = true := by
        refine hids n.id ?_
        rw [nodeIds_cons_node]; exact List.mem_cons_self _ _
      have hpt : ∀ x, alHas (applyAct s (.node n)).phenotypes x
          = alHas s.phenotypes x := fun x => phenoHas_alSet_present _ n hn x
      have hhp : (applyAct s (.node n)).hp = s.hp := rfl
      rw [ih _ k ?_, hhp]
      · simp only [lastHpWrite]
        rw [lastHpWrite_congr _ _ (fun x => hpt (.s x)) acts k]
      · intro kk hk
        rw [hpt]
        refine hids kk ?_
        rw [nodeIds_cons_node]; exact List.mem_cons_of_mem _ hk
    | isa c p =>
      have hpt : (applyAct s (.isa c p)).phenotypes = s.phenotypes :=
        phenotypes_upsertIsA s c p
      have hhp : (applyAct s (.isa c p)).hp = s.hp := hp_upsertIsA s c p
      rw [ih _ k ?_, hhp]
      · simp only [lastHpWrite, hpt]
      · intro kk hk
        rw [hpt]
        refine hids kk ?_
        rw [nodeIds_cons_isa]; exact hk
    | annot b =>
      have hpt : (applyAct s (.annot b)).phenotypes = s.phenotypes :=
        phenotypes_upsertAnnot s b
      rw [ih _ k ?_]
      swap
      · intro kk hk
        rw [hpt]
        refine hids kk ?_
        rw [nodeIds_cons_annot]; exact hk
      simp only [lastHpWrite, hpt]
      cases hL : lastHpWrite (fun pid => alHas s.phenotypes (.s pid)) acts k with
      | some v => simp [oor]
      | none =>
        simp only [oor]
        by_cases hpres : alHas s.phenotypes (.s b.phenotype_id) = true
        · have hset : (applyAct s (.annot b)).hp
              = alSet s.hp (b.disease_id, b.phenotype_id)
                  ⟨b.evidence, b.frequency, b.onset⟩ := by
            show (upsertAnnot s b).hp = _
            simp only [upsertAnnot]
            rw [if_pos hpres]
          rw [hset, alGet_alSet]
          by_cases hk : k = (b.disease_id, b.phenotype_id)
          · rw [if_pos hk, if_pos ⟨hk.symm, hpres⟩]
          · rw [if_neg hk, if_neg (fun hcon => hk hcon.1.symm)]
        · have hset : (applyAct s (.annot b)).hp = s.hp := by
            show (upsertAnnot s b).hp = _
            simp only [upsertAnnot]
            rw [if_neg hpres]
          rw [hset, if_neg (fun hcon => hpres hcon.2)]

-- well-formedness preservation
theorem wf_applyAct (s : Sink) (a : Act) (h : SinkWF s) : SinkWF (applyAct s a) := by
  obtain ⟨h1, h2, h3, h4⟩ := h
  cases a with
  | node n =>
    exact ⟨alKeys_nodup_alSet _ _ _ h1, h2, h3, h4⟩
  | isa c p =>
    rw [show applyAct s (Act.isa c p) = upsertIsA s c p from rfl]
    refine ⟨?_, ?_, ?_, ?_⟩
    · rw [phenotypes_upsertIsA]; exact h1
    · unfold upsertIsA
      split_ifs with hok hmem
      · exact h2
      · simp only [List.nodup_append, List.nodup_cons, List.not_mem_nil,
          not_false_iff, List.nodup_nil, and_true, true_and]
        refine ⟨h2, ?_⟩
        intro e he hb
        simp only [List.mem_singleton] at hb
        subst hb
        exact hmem he
      · exact h2
    · rw [diseases_upsertIsA]; exact h3
    · rw [hp_upsertIsA]; exact h4
  | annot b =>
    rw [show applyAct s (Act.annot b) = upsertAnnot s b from rfl]
    refine ⟨?_, ?_, ?_, ?_⟩
    · rw [phenotypes_upsertAnnot]; exact h1
    · rw [isa_upsertAnnot]; exact h2
    · have hd : (upsertAnnot s b).diseases
          = alSet s.diseases b.disease_id b.disease_name := by
        simp only [upsertAnnot]
        split_ifs <;> rfl
      rw [hd]
      exact alKeys_nodup_alSet _ _ _ h3
    · simp only [upsertAnnot]
      split_ifs
      · exact alKeys_nodup_alSet _ _ _ h4
      · exact h4

theorem wf_applyActs (acts : List Act) : ∀ (s : Sink),
    SinkWF s → SinkWF (applyActs s acts) := by
  induction acts with
  | nil => intro s h; exact h
  | cons a acts ih =>
    intro s h
    exact ih _ (wf_applyAct s a h)

-- the run equals its primitive-operation plan
theorem processBatch_eq (s : Sink) (b : List OboRec) :
    processBatch s b = applyActs s (batchActs b) := by
  unfold processBatch batchActs applyActs
  rw [List.foldl_append, List.foldl_map, List.foldl_map]
  rfl

theorem ingestObo_eq (batches : List (List OboRec)) : ∀ (s : Sink),
    ingestObo s batches = applyActs s (batches.flatMap batchActs) := by
  induction batches with
  | nil => intro s; rfl
  | cons b bs ih =>
    intro s
    show ingestObo (processBatch s b) bs = _
    rw [ih, processBatch_eq]
    show applyActs (applyActs s (batchActs b)) (bs.flatMap batchActs) = _
    rw [List.flatMap_cons]
    unfold applyActs
    rw [List.foldl_append]

theorem ingestRun_eq (s : Sink) (batches : List (List OboRec))
    (annots : List AnnotRow) :
    ingestRun s batches annots = applyActs s (planOf batches annots) := by
  unfold ingestRun planOf
  rw [ingestObo_eq]
  unfold applyActs
  rw [List.foldl_append, List.foldl_map]
  rfl

-- C5 support: on a duplicate-free list every element is counted 0 or 1 times
theorem count_eq_ite {α : Type} [BEq α] [LawfulBEq α] (l : List α)
    (hnd : l.Nodup) (a : α) : l.count a = if a ∈ l then 1 else 0 := by
  induction l with
  | nil => simp
  | cons b bs ih =>
    rcases List.nodup_cons.mp hnd with ⟨hb, hbs⟩
    rw [List.count_cons, ih hbs]
    by_cases hab : a = b
    · subst hab
      rw [if_neg hb, if_pos (List.mem_cons_self a bs)]
      simp
    · have hba : (b == a) = false := by
        simp only [beq_eq_false_iff_ne, ne_eq]
        exact fun h => hab h.symm
      rw [hba]
      simp only [Bool.false_eq_true, if_false, add_zero]
      by_cases hm : a ∈ bs
      · rw [if_pos hm, if_pos (List.mem_cons_of_mem b hm)]
      · rw [if_neg hm, if_neg (by simp [List.mem_cons, hab, hm])]

-- under distinct relationship entries, the row count of the
-- co-occurrence pattern equals the number of distinct shared diseases
theorem coOccurrences_eq_shared (hp : List (String × String)) (hnd : hp.Nodup)
    (p1 p2 : String) : coOccurrences hp p1 p2 = sharedDiseaseCount hp p1 p2 := by
  unfold coOccurrences sharedDiseaseCount
  have hcount : ∀ e : String × String,
      hp.count (e.1, p2) = if (e.1, p2) ∈ hp then 1 else 0 := fun e =>
    count_eq_ite hp hnd (e.1, p2)
  have hsum : ∀ l : List (String × String),
      (l.map (fun e => hp.count (e.1, p2))).sum
        = l.countP (fun e => decide ((e.1, p2) ∈ hp)) := by
    intro l
    induction l with
    | nil => rfl
    | cons e es ih =>
      simp only [List.map_cons, List.sum_cons, List.countP_cons, hcount e, ih]
      by_cases h : (e.1, p2) ∈ hp
      · simp [h]
        omega
      · simp [h]
  rw [hsum]
  have hln : (hp.filter (fun e => e.2 == p1)).Nodup := hnd.filter _
  have hmn : ((hp.filter (fun e => e.2 == p1)).map (·.1)).Nodup := by
    refine List.Nodup.map_on ?_ hln
    intro x hx y hy hxy
    have hx2 : x.2 = p1 := by
      have := List.of_mem_filter hx
      exact eq_of_beq this
    have hy2 : y.2 = p1 := by
      have := List.of_mem_filter hy
      exact eq_of_beq this
    exact Prod.ext hxy (hx2.trans hy2.symm)
  rw [List.dedup_eq_self.mpr hmn, ← List.countP_eq_length_filter,
    List.countP_map]
  rfl

theorem pyStrLeList_refl (cs : List Char) : pyStrLeList cs cs = true := by
  induction cs with
  | nil => rfl
  | cons c cs ih => simp [pyStrLeList, ih, lt_irrefl]

theorem pyStrLe_refl (s : String) : pyStrLe s s = true :=
  pyStrLeList_refl s.data

theorem find?_of_prefix_false {α : Type} (p : α → Bool) :
    ∀ (l : List α) (i : Nat) (a : α), l.get? i = some a →
    (∀ j, j < i → ∀ b, l.get? j = some b → p b = false) → p a = true →
    l.find? p = some a := by
  intro l
  induction l with
  | nil => intro i a h; simp at h
  | cons x xs ih =>
    intro i a hget hpre hpa
    cases i with
    | zero =>
      simp only [List.get?] at hget
      injection hget with h
      subst h
      exact List.find?_cons_of_pos _ hpa
    | succ i =>
      have hx : p x = false := hpre 0 (Nat.succ_pos i) x rfl
      rw [List.find?_cons_of_neg _ (by simp [hx])]
      refine ih i a hget ?_ hpa
      intro j hj b hb
      exact hpre (j+1) (Nat.succ_lt_succ hj) b hb

/-! ### The claims -/

/-- C1: the claim states that for an ontology input whose final block has no
trailing marker line, the parser emits one record per block, the final block
included, so the accumulated term at end of input is flushed and ingested.
Evaluation at the two-block failing input: the ingesting parser of
`process_obo_file` (src/HPO/phenotype.py) emits a record only for the FIRST
block, silently dropping the final term, whereas the sibling parser
`parse_obo` (src/HPO/conn.py) stores both terms. -/
theorem claim_C1 :
    (processOboFile exTwoBlocks 1000).map
      (fun bs => (bs.flatMap batchNodes).map (·.id)) = some [.s "HP:0000001"] ∧
    (parseObo exTwoBlocks).map connTermIds =
      some ["HP:0000001", "HP:0000002"] := by decide

/-- C2: the claim states that the ancestor query returns the nodes reachable
along child-to-parent is_a edges and the descendant query the nodes with a
path to the given node.  Evaluation on the index built from a two-term
ontology in which HP:0000002 is_a HP:0000001: the code returns the EMPTY set
of ancestors for HP:0000002 (the claim expects its parent), returns the
child HP:0000002 as an ancestor of HP:0000001, and returns the parent as a
descendant of HP:0000002 — `get_ancestors` and `get_descendants` delegate to
the networkx functions with the transposed meaning. -/
theorem claim_C2 :
    (parseObo exConnInput).map (fun ts =>
      (getAncestors (connTermIds ts) (connEdges ts) "HP:0000002",
       getAncestors (connTermIds ts) (connEdges ts) "HP:0000001",
       getDescendants (connTermIds ts) (connEdges ts) "HP:0000002")) =
    some ([], ["HP:0000002"], ["HP:0000001"]) := by decide

/-- C3: the claim states that a term with exactly 2 mutually connected
neighbors gets clustering coefficient 1.0 and a term with 0 or 1 neighbor
gets 0.  Evaluation: the undirected Cypher pattern counts each connected
neighbor pair in both orientations, so the canonical triangle input yields
coefficient 2 rather than 1, and a term with 1 neighbor (or no connected
pair) is dropped by the non-optional MATCH and gets NO coefficient at all
(the CASE branch writing 0 is unreachable). -/
theorem claim_C3 :
    clusterCoefficient exTri "p" = some 2 ∧
    clusterCoefficient [("p","a")] "p" = none ∧
    clusterCoefficient ([] : List (String × String)) "p" = none := by
  refine ⟨?_, by decide, by decide⟩
  have key : clusterCoefficient exTri "p"
      = some (if (2:Nat) ≤ 1 then (0:ℚ)
              else (2 * ((2:Nat):ℚ)) / (((2:Nat):ℚ) * (((2:Nat):ℚ) - 1))) := rfl
  rw [key]
  norm_num

/-- C4: the claim states that the composite-metrics pass sets prevalence,
connectivity and a guarded specificity (0 when prevalence is 0) for every
term.  Evaluation: a term with no HAS_PHENOTYPE edge, or one with no
ASSOCIATED_WITH edge, is dropped by the opening non-optional MATCH clauses
and gets nothing set (so the `ELSE 0` branch of the specificity guard can
never run); when both counts are positive the metrics are written as
specified.  (At pipeline level the pass cannot run at all:
`add_phenotype_metrics` is defined at module level, not on `GraphEnhancer`,
so the call in knowledge_graph_builder.py raises AttributeError.) -/
theorem claim_C4 :
    addPhenotypeMetrics [("d1","q")] [("p","q")] "p" = none ∧
    addPhenotypeMetrics [("d1","q"),("d2","q")] [] "q" = none ∧
    addPhenotypeMetrics [("d1","p"),("d2","p")] [("p","q")] "p"
      = some ⟨2, 1, (1:ℚ)/2⟩ := by
  refine ⟨by decide, by decide, ?_⟩
  have key : addPhenotypeMetrics [("d1","p"),("d2","p")] [("p","q")] "p"
      = some ⟨2, 1, if (2:Nat) > 0 then 1 / ((2:Nat):ℚ) else 0⟩ := rfl
  rw [key]
  norm_num

/-- C5: for a duplicate-free edge list, the association miner creates an
edge for exactly the ordered pairs of distinct phenotypes whose number of
shared diseases reaches the threshold 5, and it carries the co-occurrence
count together with correlation strength count divided by the total number
of HAS_PHENOTYPE edges incident to the anchor. -/
theorem claim_C5 (hp : List (String × String)) (hnd : hp.Nodup)
    (p1 p2 : String) :
    (minedEdge hp p1 p2 = none ↔
      p1 = p2 ∨ sharedDiseaseCount hp p1 p2 < 5) ∧
    (p1 ≠ p2 → 5 ≤ sharedDiseaseCount hp p1 p2 →
      minedEdge hp p1 p2 = some (sharedDiseaseCount hp p1 p2,
        (sharedDiseaseCount hp p1 p2 : ℚ) / (totalOccurrences hp p1 : ℚ))) := by
  have hco := coOccurrences_eq_shared hp hnd p1 p2
  simp only [minedEdge, hco]
  constructor
  · split_ifs with h1 h2 h3
    · simp [h1]
    · simp [h1, h2]
    · simp [h1, h3]
    · simp [h1]
      omega
  · intro hne hge
    rw [if_neg hne, if_neg (by omega), if_neg (by omega)]

/-- Witness for C5 at the scenario of the claim: diseases D1..D6 all link
phenotypes A and B and D7 links A and C, so the edge A to B is created with
strength 6/7 (A has 7 incident HAS_PHENOTYPE edges) and no edge A to C is
created. -/
theorem claim_C5_witness :
    exHP.Nodup ∧
    minedEdge exHP "A" "B" = some (6, (6:ℚ)/7) ∧
    minedEdge exHP "A" "C" = none := by
  refine ⟨by decide, ?_, ?_⟩
  · have h := (claim_C5 exHP (by decide) "A" "B").2 (by decide) (by decide)
    rw [h]
    have h1 : sharedDiseaseCount exHP "A" "B" = 6 := by decide
    have h2 : totalOccurrences exHP "A" = 7 := by decide
    rw [h1, h2]
    norm_num
  · exact (claim_C5 exHP (by decide) "A" "C").1.mpr (Or.inr (by decide))

/-- C6 (amended): every run preserves well-formedness (no duplicate nodes,
no duplicate edges), and ingestion is idempotent in the node/edge attribute
sets PROVIDED every node id emitted by the parse is already present in the
starting sink — which holds from the state after one complete run onward.
Unconditional idempotence fails: see the counterexample. -/
theorem claim_C6 :
    (∀ (s : Sink) (batches : List (List OboRec)) (annots : List AnnotRow),
       SinkWF s → SinkWF (ingestRun s batches annots)) ∧
    (∀ (s : Sink) (batches : List (List OboRec)) (annots : List AnnotRow),
       (∀ kk ∈ nodeIds (planOf batches annots), alHas s.phenotypes kk = true) →
       SinkEquiv (ingestRun (ingestRun s batches annots) batches annots)
         (ingestRun s batches annots)) := by
  constructor
  · intro s batches annots h
    rw [ingestRun_eq]
    exact wf_applyActs _ _ h
  · intro s batches annots H
    simp only [ingestRun_eq]
    set acts := planOf batches annots with hacts
    have hkeys : alKeys (applyActs s acts).phenotypes = alKeys s.phenotypes :=
      phenoKeys_applyActs acts s H
    have hhas : ∀ x, alHas (applyActs s acts).phenotypes x
        = alHas s.phenotypes x := by
      intro x
      have h1 := alHas_iff_mem (applyActs s acts).phenotypes x
      have h2 := alHas_iff_mem s.phenotypes x
      rw [hkeys, ← h2] at h1
      cases hb : alHas (applyActs s acts).phenotypes x with
      | false =>
        cases hs : alHas s.phenotypes x with
        | false => rfl
        | true => rw [hb, hs] at h1; exact absurd (h1.mpr rfl) (by simp)
      | true => rw [hb] at h1; exact (h1.mp rfl).symm
    have HH1 : ∀ kk ∈ nodeIds acts,
        alHas (applyActs s acts).phenotypes kk = true := by
      intro kk hk
      rw [hhas]
      exact H kk hk
    refine ⟨?_, ?_, ?_, ?_⟩
    · intro k
      rw [phenoGet_applyActs acts (applyActs s acts) k,
        phenoGet_applyActs acts s k]
      cases lastNodeWrite acts k <;> simp [oor]
    · apply isaStable
      · intro c p hm hc hp
        rw [hhas] at hc hp
        exact isaComplete acts s c p hm hc hp
      · exact HH1
    · intro k
      rw [diseaseGet_applyActs acts (applyActs s acts) k,
        diseaseGet_applyActs acts s k]
      cases lastDiseaseWrite acts k <;> simp [oor]
    · intro k
      rw [hpGet_applyActs acts (applyActs s acts) k HH1,
        lastHpWrite_congr _ _ (fun x => hhas (.s x)) acts k,
        hpGet_applyActs acts s k H]
      cases lastHpWrite (fun pid => alHas s.phenotypes (.s pid)) acts k <;>
        simp [oor]

/-- Counterexample to C6 as stated: with batch size 3, the input whose
first batch carries an is_a record pointing at a parent term that is only
upserted in the SECOND batch produces no IS_A edge on the first run (the
parent MATCH fails) but produces the edge on the second run, so two runs
from the same initial state do not yield the same edge set as one run. -/
theorem claim_C6_cex :
    (processOboFile exC6Input 3).map (fun bs =>
      ((ingestRun emptySink bs []).isa,
       (ingestRun (ingestRun emptySink bs []) bs []).isa)) =
    some ([], [(.s "HP:0000002", "HP:0000001")]) := by decide

/-- Witness for C6: both conjuncts applied at concrete inputs — a run from
the empty sink is well-formed, and a run whose single node id is already
present in the sink is idempotent. -/
theorem claim_C6_witness :
    SinkWF (ingestRun emptySink [[OboRec.node exNodeC6]] []) ∧
    ((∀ kk ∈ nodeIds (planOf [[OboRec.node exNodeC6]] []),
        alHas exSinkC6.phenotypes kk = true) ∧
      SinkEquiv
        (ingestRun (ingestRun exSinkC6 [[OboRec.node exNodeC6]] [])
          [[OboRec.node exNodeC6]] [])
        (ingestRun exSinkC6 [[OboRec.node exNodeC6]] [])) :=
  ⟨claim_C6.1 emptySink [[OboRec.node exNodeC6]] [] (by unfold SinkWF; decide),
   by decide,
   claim_C6.2 exSinkC6 [[OboRec.node exNodeC6]] [] (by decide)⟩

/-- C7 (amended): for every rule table, a rule whose start (respectively
end) identifier is contained in no earlier rule range classifies to that
rule category under first-match precedence, an identifier below every rule
start classifies to the fallback, and in the shipped table the identifier
one unit below the lowest configured start maps to the fallback. -/
theorem claim_C7 :
    (∀ (rules : List (String × String × String)) (i : Nat)
       (r : String × String × String), rules.get? i = some r →
       (∀ j, j < i → ∀ q, rules.get? j = some q → inRangeStr q r.1 = false) →
       pyStrLe r.1 r.2.1 = true →
       classifyRanges rules r.1 = r.2.2) ∧
    (∀ (rules : List (String × String × String)) (i : Nat)
       (r : String × String × String), rules.get? i = some r →
       (∀ j, j < i → ∀ q, rules.get? j = some q → inRangeStr q r.2.1 = false) →
       pyStrLe r.1 r.2.1 = true →
       classifyRanges rules r.2.1 = r.2.2) ∧
    (∀ (rules : List (String × String × String)) (x : String),
       (∀ r ∈ rules, pyStrLe r.1 x = false) →
       classifyRanges rules x = "Other") ∧
    determineCategory "HP:0000004" = "Other" := by
  refine ⟨?_, ?_, ?_, by decide⟩
  · intro rules i r hget hpre hse
    unfold classifyRanges
    simp only [inRangeStr] at hpre
    rw [find?_of_prefix_false (fun q => pyStrLe q.1 r.1 && pyStrLe r.1 q.2.1)
      rules i r hget hpre
      (by rw [Bool.and_eq_true]; exact ⟨pyStrLe_refl r.1, hse⟩)]
  · intro rules i r hget hpre hse
    unfold classifyRanges
    simp only [inRangeStr] at hpre
    rw [find?_of_prefix_false
      (fun q => pyStrLe q.1 r.2.1 && pyStrLe r.2.1 q.2.1)
      rules i r hget hpre
      (by rw [Bool.and_eq_true]; exact ⟨hse, pyStrLe_refl r.2.1⟩)]
  · intro rules x hall
    unfold classifyRanges
    have hnone : rules.find? (fun q => pyStrLe q.1 x && pyStrLe x q.2.1)
        = none := by
      rw [List.find?_eq_none]
      intro q hq
      simp [hall q hq]
    rw [hnone]

/-- Counterexample to C7 as stated: the configured rule
(HP:0000118, HP:0001416, Morphology) exists, yet both its boundary
identifiers classify to Inheritance, because the earlier Inheritance range
HP:0000005..HP:0001999 already contains them. -/
theorem claim_C7_cex :
    ("HP:0000118", "HP:0001416", "Morphology") ∈ categories ∧
    determineCategory "HP:0000118" = "Inheritance" ∧
    determineCategory "HP:0001416" = "Inheritance" ∧
    "Inheritance" ≠ "Morphology" := by decide

/-- Witness for C7: the first configured rule has no earlier rule, so both
its boundaries classify to its own category; and every rule start exceeds
HP:0000004, which therefore classifies to the fallback. -/
theorem claim_C7_witness :
    (categories.get? 0 = some ("HP:0000005", "HP:0001999", "Inheritance") ∧
     classifyRanges categories "HP:0000005" = "Inheritance" ∧
     classifyRanges categories "HP:0001999" = "Inheritance") ∧
    ((∀ r ∈ categories, pyStrLe r.1 "HP:0000004" = false) ∧
     classifyRanges categories "HP:0000004" = "Other") :=
  ⟨⟨by decide,
    claim_C7.1 categories 0 ("HP:0000005", "HP:0001999", "Inheritance")
      (by decide) (fun j hj => absurd hj (Nat.not_lt_zero j)) (by decide),
    claim_C7.2.1 categories 0 ("HP:0000005", "HP:0001999", "Inheritance")
      (by decide) (fun j hj => absurd hj (Nat.not_lt_zero j)) (by decide)⟩,
   ⟨by decide,
    claim_C7.2.2.1 categories "HP:0000004" (by decide)⟩⟩

/-- C8: the claim states that node records are upserted before relationship
records within a batch, so that parsing HP:0000001 and HP:0000002 (with one
is_a line) into a single batch yields exactly one IS_A edge.  Evaluation at
that input: both node records do land in one batch and node upserts do run
first, but the single is_a value is a scalar string which the record loop
iterates CHARACTER BY CHARACTER, producing ten relationship records with
one-character parent ids; every parent MATCH fails, so the batch yields
ZERO IS_A edges, not one. -/
theorem claim_C8 :
    (processOboFile exOneBatch 1000).map
        (fun bs => bs.map (fun b => (batchNodes b).map (·.id)))
      = some [[.s "HP:0000001", .s "HP:0000002"]] ∧
    (processOboFile exOneBatch 1000).map (fun bs => bs.map batchRels)
      = some [[(.s "HP:0000002","H"),(.s "HP:0000002","P"),(.s "HP:0000002",":"),
               (.s "HP:0000002","0"),(.s "HP:0000002","0"),(.s "HP:0000002","0"),
               (.s "HP:0000002","0"),(.s "HP:0000002","0"),(.s "HP:0000002","0"),
               (.s "HP:0000002","1")]] ∧
    (processOboFile exOneBatch 1000).map
        (fun bs => (ingestObo emptySink bs).isa) = some [] ∧
    (processOboFile exOneBatch 1000).map
        (fun bs => alKeys (ingestObo emptySink bs).phenotypes)
      = some [.s "HP:0000001", .s "HP:0000002"] := by decide

/-- C9: after the hub pass, the hub flag is true exactly when the number of
incident ASSOCIATED_WITH relationships exceeds 10; a term with 11 such
edges is flagged, a term with 10 is not.  (A term with no such edge is
dropped by the MATCH and keeps no flag at all, which still satisfies the
biconditional on the flag being true.) -/
theorem claim_C9 (aw : List (String × String)) (p : String) :
    (isHub aw p = some true ↔ 10 < (awIncident aw p).length) ∧
    ((awIncident aw p).length = 11 → isHub aw p = some true) ∧
    ((awIncident aw p).length = 10 → isHub aw p = some false) := by
  simp only [isHub]
  refine ⟨?_, ?_, ?_⟩
  · split_ifs with h
    · simp [h]
    · simp
  · intro h
    rw [if_neg (by omega)]
    simp [h]
  · intro h
    rw [if_neg (by omega)]
    simp [h]

/-- Witness for C9 at the boundary inputs: eleven incident edges make a
hub, ten do not. -/
theorem claim_C9_witness :
    ((awIncident exAw11 "p").length = 11 ∧ isHub exAw11 "p" = some true) ∧
    ((awIncident exAw10 "p").length = 10 ∧ isHub exAw10 "p" = some false) :=
  ⟨⟨by decide, (claim_C9 exAw11 "p").2.1 (by decide)⟩,
   ⟨by decide, (claim_C9 exAw10 "p").2.2 (by decide)⟩⟩

/-- Counterexample to C10 as stated: the identifier HP0000001 is malformed
(missing separator), yet the numeric classifier returns Morphology, not the
fallback, because a missing separator makes it classify the number 0. -/
theorem claim_C10_cex :
    determineCategoryNum "HP0000001" = "Morphology" ∧
    ("Morphology" : String) ≠ "Other" := by decide

/-- C10 (amended): both classifiers always return a label (total functions,
never an exception): the numeric classifier returns the fallback for every
identifier with a separator whose suffix is not a number, but treats an
identifier with NO separator as numeric suffix 0, returning the first range
category; the string classifier returns a configured label for every
input. -/
theorem claim_C10 :
    (∀ s : String, determineCategoryNum s = "Other" ∨
       ∃ r ∈ categoriesNum, determineCategoryNum s = r.2) ∧
    (∀ s : String, s.data.contains ':' = true →
       pyInt ((pySplitChar ':' s).getD 1 "") = none →
       determineCategoryNum s = "Other") ∧
    (∀ s : String, s.data.contains ':' = false →
       determineCategoryNum s = "Morphology") ∧
    (∀ s : String, determineCategory s = "Other" ∨
       ∃ r ∈ categories, determineCategory s = r.2.2) := by
  have hclassify : ∀ (rules : List (String × String × String)) (x : String),
      classifyRanges rules x = "Other" ∨
        ∃ r ∈ rules, classifyRanges rules x = r.2.2 := by
    intro rules x
    unfold classifyRanges
    cases h : rules.find? (fun r => pyStrLe r.1 x && pyStrLe x r.2.1) with
    | none => exact Or.inl rfl
    | some r => exact Or.inr ⟨r, List.mem_of_find?_eq_some h, rfl⟩
  have hfind : ∀ n : Int, findCategoryNum n = "Other" ∨
      ∃ r ∈ categoriesNum, findCategoryNum n = r.2 := by
    intro n
    unfold findCategoryNum
    cases h : categoriesNum.find?
        (fun r => decide (r.1.1 ≤ n) && decide (n ≤ r.1.2)) with
    | none => exact Or.inl rfl
    | some r => exact Or.inr ⟨r, List.mem_of_find?_eq_some h, rfl⟩
  refine ⟨?_, ?_, ?_, ?_⟩
  · intro s
    cases hc : s.data.contains ':' with
    | false =>
      have hgoal : determineCategoryNum s = findCategoryNum 0 := by
        unfold determineCategoryNum
        rw [if_neg (by rw [hc]; exact Bool.false_ne_true)]
      rw [hgoal]
      exact Or.inr ⟨((0, 1999), "Morphology"), by decide, by decide⟩
    | true =>
      have hgoal : determineCategoryNum s =
          match pyInt ((pySplitChar ':' s).getD 1 "") with
          | none => "Other"
          | some n => findCategoryNum n := by
        unfold determineCategoryNum
        rw [if_pos hc]
      rw [hgoal]
      cases hi : pyInt ((pySplitChar ':' s).getD 1 "") with
      | none => exact Or.inl rfl
      | some n => exact hfind n
  · intro s hc hnone
    unfold determineCategoryNum
    rw [if_pos hc, hnone]
  · intro s hc
    unfold determineCategoryNum
    rw [if_neg (by rw [hc]; exact Bool.false_ne_true)]
    decide
  · intro s
    by_cases h : s = ""
    · subst h
      exact Or.inl (by decide)
    · simp only [determineCategory, if_neg h]
      exact hclassify categories s

/-- Witness for C10: a non-numeric suffix with separator yields the
fallback; a missing separator yields Morphology. -/
theorem claim_C10_witness :
    (("HP:abc".data.contains ':' = true ∧
      pyInt ((pySplitChar ':' "HP:abc").getD 1 "") = none ∧
      determineCategoryNum "HP:abc" = "Other") ∧
     ("HP0000001".data.contains ':' = false ∧
      determineCategoryNum "HP0000001" = "Morphology")) :=
  ⟨⟨by decide, by decide, claim_C10.2.1 "HP:abc" (by decide) (by decide)⟩,
   ⟨by decide, claim_C10.2.2.1 "HP0000001" (by decide)⟩⟩
